import Mathlib

/-!
Verification of the email-analysis repository's consolidation and
classification engine against its specification.

The definitions below are shallow embeddings of the Python source:
* `determineFromScores` — `BasicExtractor._determine_email_type`, resolution
  step (src/src/extractors/basic_extractor.py lines 147-159);
* `select_most_frequent`, `merge_unique_languages`, `consolidate_timeline`
  and its helpers — the aggregation closures of `main` (src/main.py);
* `runChain` / `runChainExc` — `JobCompanyExtractor.extract_job_company`
  (src/src/extractors/job_company_extractor.py);
* `email_key` — the grouping-key extraction in
  `EmailAnalyzer.process_single_email` (src/main.py lines 85-86);
* `extract_name`, `predict_gender` — `ContactExtractor`
  (src/src/extractors/contact_extractor.py).
-/

namespace EmailAnalysis

/-! ## Email-type classifier: score resolution

`_determine_email_type` builds a dict `scores` whose keys are inserted in
the order formal, casual, transactional, marketing, automated, then picks
`top_categories = [cat for cat, score in scores.items() if score == max]`
and resolves ties (lines 147-159 of basic_extractor.py). -/

inductive Category where
  | formal
  | casual
  | transactional
  | marketing
  | automated
deriving DecidableEq, Repr, Inhabited, Fintype

open Category

/-- The categories in the insertion order of the `scores` dict
(`{'formal': 0, 'casual': 0, 'transactional': 0, 'marketing': 0, 'automated': 0}`),
which is the iteration order of `scores.items()` in Python. -/
def categoryOrder : List Category :=
  [formal, casual, transactional, marketing, automated]

/-- `max(scores.values())`. -/
def maxScore (scores : Category → Nat) : Nat :=
  (categoryOrder.map scores).foldr max 0

/-- `top_categories = [cat for cat, score in scores.items() if score == max_score]`. -/
def topCategories (scores : Category → Nat) : List Category :=
  categoryOrder.filter (fun c => scores c = maxScore scores)

/-- Lines 147-159 of `basic_extractor.py`: the tie-resolution tail of
`_determine_email_type`, as a function of the final score table.
`headI` models `top_categories[0]` (the list is never empty, since the
maximum over the five categories is attained). -/
def determineFromScores (scores : Category → Nat) : Category :=
  let top := topCategories scores
  if 1 < top.length ∧ casual ∈ top ∧ formal ∈ top then casual
  else if 1 < top.length ∧ transactional ∈ top ∧ automated ∈ top then automated
  else top.headI

/-! ## Python string ordering

Python compares strings lexicographically by Unicode code point; `sorted`
and `pandas` tie-ordering use this order. -/

/-- Code-point lexicographic comparison of character lists, Python's
string `<=`. -/
def charListLe : List Char → List Char → Bool
  | [], _ => true
  | _ :: _, [] => false
  | a :: as, b :: bs =>
    if a.toNat < b.toNat then true
    else if b.toNat < a.toNat then false
    else charListLe as bs

/-- Python's `str.__le__`. -/
def pyStrLe (a b : String) : Bool := charListLe a.toList b.toList

/-- `pyStrLe` as a relation, for use with `List.insertionSort`. -/
def strle (a b : String) : Prop := pyStrLe a b = true

instance : DecidableRel strle := fun a b => instDecidableEqBool (pyStrLe a b) true

theorem charListLe_total : ∀ a b, charListLe a b = true ∨ charListLe b a = true
  | [], _ => Or.inl rfl
  | _ :: _, [] => Or.inr rfl
  | a :: as, b :: bs => by
    rcases Nat.lt_trichotomy a.toNat b.toNat with h | h | h
    · exact Or.inl (by simp [charListLe, h])
    · have h1 : ¬ a.toNat < b.toNat := by omega
      have h2 : ¬ b.toNat < a.toNat := by omega
      rcases charListLe_total as bs with ih | ih
      · exact Or.inl (by simp [charListLe, h1, h2, ih])
      · exact Or.inr (by simp [charListLe, h1, h2, ih])
    · exact Or.inr (by simp [charListLe, h])

theorem charListLe_trans :
    ∀ a b c, charListLe a b = true → charListLe b c = true → charListLe a c = true
  | [], _, _ => fun _ _ => rfl
  | _ :: _, [], _ => fun h _ => by simp [charListLe] at h
  | _ :: _, _ :: _, [] => fun _ h => by simp [charListLe] at h
  | a :: as, b :: bs, c :: cs => fun h1 h2 => by
    simp only [charListLe] at h1 h2 ⊢
    rcases Nat.lt_trichotomy a.toNat b.toNat with hab | hab | hab
    · rcases Nat.lt_trichotomy b.toNat c.toNat with hbc | hbc | hbc
      · rw [if_pos (by omega)]
      · rw [if_pos (by omega)]
      · rw [if_neg (by omega), if_pos (by omega)] at h2
        cases h2
    · rcases Nat.lt_trichotomy b.toNat c.toNat with hbc | hbc | hbc
      · rw [if_pos (by omega)]
      · rw [if_neg (by omega), if_neg (by omega)] at h1
        rw [if_neg (by omega), if_neg (by omega)] at h2
        rw [if_neg (by omega), if_neg (by omega)]
        exact charListLe_trans as bs cs h1 h2
      · rw [if_neg (by omega), if_pos (by omega)] at h2
        cases h2
    · rw [if_neg (by omega), if_pos (by omega)] at h1
      cases h1

theorem charListLe_antisymm :
    ∀ a b, charListLe a b = true → charListLe b a = true → a = b
  | [], [] => fun _ _ => rfl
  | [], _ :: _ => fun _ h => by simp [charListLe] at h
  | _ :: _, [] => fun h _ => by simp [charListLe] at h
  | a :: as, b :: bs => fun h1 h2 => by
    simp only [charListLe] at h1 h2
    rcases Nat.lt_trichotomy a.toNat b.toNat with h | h | h
    · rw [if_neg (by omega), if_pos (by omega)] at h2
      cases h2
    · rw [if_neg (by omega), if_neg (by omega)] at h1
      rw [if_neg (by omega), if_neg (by omega)] at h2
      have hc : a = b := Char.eq_of_val_eq (UInt32.eq_of_val_eq (Fin.ext h))
      rw [hc, charListLe_antisymm as bs h1 h2]
    · rw [if_neg (by omega), if_pos (by omega)] at h1
      cases h1

instance : IsTotal String strle := ⟨fun a b => charListLe_total a.toList b.toList⟩

instance : IsTrans String strle :=
  ⟨fun a b c => charListLe_trans a.toList b.toList c.toList⟩

instance : IsAntisymm String strle := by
  constructor
  intro a b h1 h2
  have h := charListLe_antisymm a.toList b.toList h1 h2
  cases a; cases b
  exact congrArg String.mk h

/-! ## Mode merge (`select_most_frequent`, main.py lines 143-144)

`series.mode().iloc[0] if not series.mode().empty else None`.
`pandas.Series.mode()` drops nulls, computes the set of values attaining
the maximal multiplicity, and returns them **sorted ascending**; `.iloc[0]`
is therefore the smallest tied value. -/

/-- The maximal multiplicity of any element of `xs`. -/
def modeCount (xs : List String) : Nat :=
  (xs.map fun v => xs.count v).foldr max 0

/-- `pandas.Series.mode()` on the non-null values: the distinct values of
maximal multiplicity, sorted ascending. -/
def pandasMode (xs : List String) : List String :=
  List.insertionSort strle (xs.dedup.filter fun v => xs.count v = modeCount xs)

/-- `select_most_frequent` (main.py lines 143-144): nulls are dropped by
`mode()`; the first (= smallest) mode is returned, `None` on an all-null
group. -/
def select_most_frequent (vals : List (Option String)) : Option String :=
  (pandasMode (vals.filterMap id)).head?

/-- Modelled from the spec: mode merge with ties broken by **first
occurrence in group order** ("choose the most frequent non-null value in
the group; ties broken by first occurrence in group order"), for comparison
with `select_most_frequent`. -/
def select_most_frequent_spec (vals : List (Option String)) : Option String :=
  let xs := vals.filterMap id
  xs.find? fun v => xs.count v = modeCount xs

/-! ## Set-union merge (`merge_unique_languages`, main.py lines 147-151)

```
unique_languages = set()
for langs in series.dropna():
    unique_languages.update(map(str.strip, langs.split(',')))
return ', '.join(sorted(unique_languages)) if unique_languages else None
```
The input is the list of non-null group values (after `dropna`). Tokens
are stripped of surrounding whitespace but **not** case-normalized. -/

/-- Splitting a character list at every character satisfying `p`:
`"a,,b".split(',') == ['a', '', 'b']` and `''.split(',') == ['']`. -/
def splitOnP (p : Char → Bool) : List Char → List (List Char)
  | [] => [[]]
  | c :: rest =>
    if p c then [] :: splitOnP p rest
    else
      match splitOnP p rest with
      | t :: ts => (c :: t) :: ts
      | [] => [[c]]

/-- Python `str.strip()`: remove leading and trailing whitespace. -/
def stripChars (cs : List Char) : List Char :=
  ((cs.dropWhile Char.isWhitespace).reverse.dropWhile Char.isWhitespace).reverse

/-- The stripped tokens of one group value: `map(str.strip, langs.split(','))`. -/
def langTokens (langs : String) : List String :=
  (splitOnP (· == ',') langs.toList).map fun t => String.mk (stripChars t)

/-- `merge_unique_languages` (main.py lines 147-151). The Python `set` is
modelled by `dedup`; `sorted` only depends on the set's members. -/
def merge_unique_languages (vals : List String) : Option String :=
  let tokens := (vals.flatMap langTokens).dedup
  if tokens.isEmpty then none
  else some (String.intercalate ", " (List.insertionSort strle tokens))

/-- Modelled from the spec: the same merge with tokens additionally
case-normalized ("split each value into normalized tokens (trimmed,
case-normalized)"), for comparison with `merge_unique_languages`. -/
def merge_unique_languages_spec (vals : List String) : Option String :=
  let tokens :=
    (vals.flatMap fun langs =>
      (langTokens langs).map fun t => String.mk (t.toList.map Char.toLower)).dedup
  if tokens.isEmpty then none
  else some (String.intercalate ", " (List.insertionSort strle tokens))

/-! ## Timeline merge (`consolidate_timeline`, main.py lines 154-178) -/

/-- One per-message `Active Email Usage Timeline` dict as produced by
`BasicExtractor._extract_time_characteristics` on a parseable date. -/
structure Timeline where
  day_of_week : String
  hour_of_day : Nat
  is_business_hours : Bool
  is_weekend : Bool
deriving DecidableEq, Repr

/-- `Counter(days).most_common(1)[0][0]`: the first-seen value of maximal
multiplicity (`collections.Counter` orders equal counts by first insertion). -/
def most_common_day (days : List String) : Option String :=
  days.find? fun v => days.count v = modeCount days

/-- `int(pd.Series(hours).median())` (main.py line 167): pandas sorts the
values; an odd count takes the middle value, an even count averages the two
middle values, and `int()` truncates the (non-negative) result, i.e. takes
the floor — which `Nat` division gives directly. -/
def median_hour (hours : List Nat) : Option Nat :=
  if hours = [] then none
  else
    let s := List.insertionSort (· ≤ ·) hours
    let n := hours.length
    if n % 2 = 1 then some (s.getD (n / 2) 0)
    else some ((s.getD (n / 2 - 1) 0 + s.getD (n / 2) 0) / 2)

/-- Modelled from the spec: "median hour-of-day (integer, lower-median on
even counts)" — the lower of the two middle values — for comparison with
`median_hour`. -/
def median_hour_spec (hours : List Nat) : Option Nat :=
  if hours = [] then none
  else some ((List.insertionSort (· ≤ ·) hours).getD ((hours.length - 1) / 2) 0)

/-- `max(set(flags), key=flags.count)` (main.py lines 169-170). For
booleans, CPython iterates the set `{False, True}` with `False` first
(`hash(False) = 0 < 1 = hash(True)`), and `max` keeps the first element
whose key is not strictly exceeded — so an equal count yields `False`. -/
def bool_majority (flags : List Bool) : Option Bool :=
  if flags = [] then none
  else if flags.count false = 0 then some true
  else if flags.count false < flags.count true then some true
  else some false

/-- The consolidated timeline record returned by `consolidate_timeline`. -/
structure ConsolidatedTimeline where
  most_active_day : Option String
  median_active_hour : Option Nat
  mostly_business_hours : Option Bool
  mostly_weekend : Option Bool
deriving DecidableEq, Repr

/-- `consolidate_timeline` (main.py lines 154-178) on the non-null group
values. -/
def consolidate_timeline (ts : List Timeline) : ConsolidatedTimeline :=
  { most_active_day := most_common_day (ts.map (·.day_of_week))
    median_active_hour := median_hour (ts.map (·.hour_of_day))
    mostly_business_hours := bool_majority (ts.map (·.is_business_hours))
    mostly_weekend := bool_majority (ts.map (·.is_weekend)) }

/-! ## Fallback chain (`JobCompanyExtractor.extract_job_company`)

```
result = {'job_title': None, ..., 'confidence_score': 0.0, 'source': None}
for method in methods:
    job_info = method(email_data)
    if job_info['confidence_score'] > result['confidence_score']:
        result = job_info
        if result['confidence_score'] > 0.8:
            break
return result
```
with the whole body wrapped in `try: ... except Exception: return empty`.
Each strategy is a function of the fixed message only, so a run is
determined by the list of per-strategy outcomes, in order. -/

/-- The dict each extraction method returns. -/
structure JobInfo where
  job_title : Option String
  company : Option String
  department : Option String
  confidence_score : ℚ
  source : Option String
deriving DecidableEq, Repr

/-- `result`'s initial value, also `_empty_result()`. -/
def emptyJobInfo : JobInfo :=
  { job_title := none, company := none, department := none
    confidence_score := 0, source := none }

/-- The high-confidence threshold `0.8` of line 58. -/
def highConfidenceThreshold : ℚ := 8 / 10

/-- The `for method in methods` loop (lines 54-59), given the outcomes of
the successive strategies; returns the final `result` together with the
number of strategies that were executed. -/
def runChain (best : JobInfo) : List JobInfo → JobInfo × Nat
  | [] => (best, 0)
  | s :: rest =>
    if best.confidence_score < s.confidence_score then
      if highConfidenceThreshold < s.confidence_score then (s, 1)
      else
        let p := runChain s rest
        (p.1, p.2 + 1)
    else
      let p := runChain best rest
      (p.1, p.2 + 1)

/-- `extract_job_company` when no strategy raises. -/
def extract_job_company (outcomes : List JobInfo) : JobInfo :=
  (runChain emptyJobInfo outcomes).1

/-- The running `result` after a prefix of the loop if the early `break`
is ignored: `best` updated by each strategy in turn. -/
def foldBest (best : JobInfo) (outcomes : List JobInfo) : JobInfo :=
  outcomes.foldl (fun b s => if b.confidence_score < s.confidence_score then s else b) best

/-- A strategy outcome when strategies may raise: `Except.error` models a
Python exception escaping the method. -/
abbrev StrategyOutcome := Except String JobInfo

/-- The same loop when strategies may raise. The `try` of line 37 wraps the
**whole** loop, so the first exception makes `extract_job_company` return
`_empty_result()`-shaped data (lines 63-71) at once; the count again is the
number of strategies executed. -/
def runChainExc (best : JobInfo) : List StrategyOutcome → JobInfo × Nat
  | [] => (best, 0)
  | Except.error _ :: _ => (emptyJobInfo, 1)
  | Except.ok s :: rest =>
    if best.confidence_score < s.confidence_score then
      if highConfidenceThreshold < s.confidence_score then (s, 1)
      else
        let p := runChainExc s rest
        (p.1, p.2 + 1)
    else
      let p := runChainExc best rest
      (p.1, p.2 + 1)

/-- `extract_job_company` with the exception wrapper. -/
def extract_job_company_exc (outcomes : List StrategyOutcome) : JobInfo :=
  (runChainExc emptyJobInfo outcomes).1

/-! ## Grouping key (`process_single_email`, main.py lines 85-86)

```
from_email = re.search(r'[\w\.-]+@[\w\.-]+', email_data.get('from', ''))
result['email'] = from_email.group(0) if from_email else ''
```
`df.groupby('email')` (line 215) then groups rows by this string, compared
exactly (case-sensitively). The regex is modelled for ASCII input, where
`\w` is `[A-Za-z0-9_]`. -/

/-- A character matched by the class `[\w\.-]` (ASCII). -/
def isEmailChar (c : Char) : Bool := c.isAlphanum || c == '_' || c == '.' || c == '-'

/-- A match of `[\w\.-]+@[\w\.-]+` anchored at the start of `cs`: a
non-empty run of email characters, `'@'`, and a non-empty run of email
characters, both runs greedy. -/
def matchEmailAt (cs : List Char) : Option (List Char) :=
  let run1 := cs.takeWhile isEmailChar
  if run1.isEmpty then none
  else
    match cs.dropWhile isEmailChar with
    | [] => none
    | a :: rest2 =>
      if a = '@' then
        let run2 := rest2.takeWhile isEmailChar
        if run2.isEmpty then none else some (run1 ++ '@' :: run2)
      else none

/-- `re.search`: the match at the leftmost position where one exists. -/
def searchEmail : List Char → Option (List Char)
  | [] => none
  | c :: cs =>
    match matchEmailAt (c :: cs) with
    | some m => some m
    | none => searchEmail cs

/-- The grouping key of main.py lines 85-86. -/
def email_key (from_addr : String) : String :=
  match searchEmail from_addr.toList with
  | some m => String.mk m
  | none => ""

/-! ## Name extraction and gender prediction (`ContactExtractor`)

`extract_name` first scans the signature's named entities for a `PERSON`
(spaCy is an external collaborator: its output is modelled as the list of
`(text, label)` entities it returns); failing that it applies
`re.match(r'(?:"?([^"<]+)"?\s*)?<[^>]+>', from)` and returns group 1;
failing that it returns `''`. `predict_gender(name)` evaluates
`name.split()[0]`, which raises `IndexError` on an empty name. -/

/-- A match of `<[^>]+>` anchored at the start of `cs`. -/
def angleMatch (cs : List Char) : Bool :=
  match cs with
  | '<' :: rest =>
    !(rest.takeWhile (· ≠ '>')).isEmpty && !(rest.dropWhile (· ≠ '>')).isEmpty
  | _ => false

/-- `re.match(r'(?:"?([^"<]+)"?\s*)?<[^>]+>', s)`: `none` when there is no
match, `some g` when there is one, with `g` the value of group 1 (`none`
when the optional group did not participate). The two alternatives —
optional group taken or skipped — are mutually exclusive because the group
requires a non-empty body of characters other than `'"'` and `'<'`, so the
greedy resolution below is the backtracking result. -/
def match_display_name (cs : List Char) : Option (Option (List Char)) :=
  if angleMatch cs then some none
  else
    let afterQuote := match cs with
      | '"' :: t => t
      | _ => cs
    let body := afterQuote.takeWhile fun c => c ≠ '"' && c ≠ '<'
    if body.isEmpty then none
    else
      let rest1 := afterQuote.dropWhile fun c => c ≠ '"' && c ≠ '<'
      let rest2 := match rest1 with
        | '"' :: t => t
        | _ => rest1
      let rest3 := rest2.dropWhile (·.isWhitespace)
      if angleMatch rest3 then some (some body) else none

/-- `ContactExtractor.extract_name` (contact_extractor.py lines 16-30),
with the signature's spaCy entities passed in as `(text, label)` pairs.
The result `none` models Python `None` (the display-name regex matched via
its second alternative, group 1 absent); `some ""` is the empty string of
line 30. -/
def extract_name (ents : List (String × String)) (from_addr : String) : Option String :=
  match ents.find? (fun e => e.2 == "PERSON") with
  | some e => some e.1
  | none =>
    match match_display_name from_addr.toList with
    | some g1 => g1.map String.mk
    | none => some ""

/-- Python `str.split()`: split on whitespace runs, no empty fields. -/
def pySplitWs (s : String) : List String :=
  ((splitOnP Char.isWhitespace s.toList).filter (· ≠ [])).map String.mk

/-- `ContactExtractor.predict_gender` (contact_extractor.py lines 32-36).
The external `gender_guesser` detector is passed in as a function; the
`Except.error` cases are the uncaught Python exceptions: `name.split()[0]`
raises `IndexError` when the name has no words, and `None.split()` raises
`AttributeError`. -/
def predict_gender (detector : String → String) (name : Option String) :
    Except String String :=
  match name with
  | none => Except.error "AttributeError"
  | some n =>
    match pySplitWs n with
    | [] => Except.error "IndexError"
    | w :: _ => Except.ok (detector w)

/-- The `try`/`except` of `process_single_email` (main.py lines 36-92)
restricted to the name → gender path: the `'Gender'` entry of the result
dict is `predict_gender(extract_name(email_data))`, and any exception
makes `process_single_email` return the empty dict (line 92), modelled as
`none`; `main` then drops the falsy record (line 132), so no profile row
is produced. -/
def process_single_email_gender (ents : List (String × String)) (from_addr : String)
    (detector : String → String) : Option String :=
  match predict_gender detector (extract_name ents from_addr) with
  | Except.ok g => some g
  | Except.error _ => none

/-! ## Helper lemmas -/

theorem strle_refl (a : String) : strle a a := by
  rcases charListLe_total a.toList a.toList with h | h <;> exact h

theorem foldr_max_mem : ∀ l : List Nat, l ≠ [] → l.foldr max 0 ∈ l
  | [x], _ => by simp
  | x :: y :: t, _ => by
    have hmem := foldr_max_mem (y :: t) (by simp)
    show max x ((y :: t).foldr max 0) ∈ x :: y :: t
    rcases Nat.le_total x ((y :: t).foldr max 0) with h | h
    · rw [Nat.max_eq_right h]
      exact List.mem_cons_of_mem x hmem
    · rw [Nat.max_eq_left h]
      exact List.mem_cons_self x _

theorem exists_count_eq_modeCount {xs : List String} (h : xs ≠ []) :
    ∃ v ∈ xs, xs.count v = modeCount xs := by
  have hne : xs.map (fun v => xs.count v) ≠ [] := by
    simpa using h
  have hmem := foldr_max_mem _ hne
  rw [List.mem_map] at hmem
  obtain ⟨v, hv, hcv⟩ := hmem
  exact ⟨v, hv, hcv⟩

/-! ## C1 — mode merge -/

/-- C1, counterexample: the group `["Senior Engineer", "Engineer"]` is a
tie; first-occurrence tie-breaking (the claim, `select_most_frequent_spec`)
would return `"Senior Engineer"`, but the code's `select_most_frequent`
returns `"Engineer"`, the tied value that sorts first. -/
theorem select_most_frequent_not_first_occurrence :
    select_most_frequent [some "Senior Engineer", some "Engineer"] = some "Engineer" ∧
    select_most_frequent_spec [some "Senior Engineer", some "Engineer"] =
      some "Senior Engineer" ∧
    ("Engineer" : String) ≠ "Senior Engineer" := by
  refine ⟨by decide, by decide, by decide⟩

/-- C1 (amended): the consolidated value is the most frequent non-null
value of the group; when several values tie for the highest frequency the
**smallest tied value in ascending (code-point) order** is returned — for
`["Engineer", "Senior Engineer"]` this happens to be `"Engineer"` — and a
single-element group returns its element unchanged. -/
theorem select_most_frequent_mode_min (vals : List (Option String))
    (h : vals.filterMap id ≠ []) :
    (∀ x : String, select_most_frequent [some x] = some x) ∧
    ∃ m, select_most_frequent vals = some m ∧
      m ∈ vals.filterMap id ∧
      (vals.filterMap id).count m = modeCount (vals.filterMap id) ∧
      ∀ v ∈ vals.filterMap id,
        (vals.filterMap id).count v = modeCount (vals.filterMap id) → strle m v := by
  constructor
  · intro x
    show (pandasMode [x]).head? = some x
    unfold pandasMode modeCount
    simp [strle_refl]
  · obtain ⟨v, hv, hcv⟩ := exists_count_eq_modeCount h
    set xs := vals.filterMap id with hxs
    have hvf : v ∈ xs.dedup.filter fun u => decide (xs.count u = modeCount xs) := by
      rw [List.mem_filter]
      exact ⟨List.mem_dedup.mpr hv, by simpa using hcv⟩
    have hsort := List.sorted_insertionSort strle
      (xs.dedup.filter fun u => decide (xs.count u = modeCount xs))
    have hperm := List.perm_insertionSort strle
      (xs.dedup.filter fun u => decide (xs.count u = modeCount xs))
    have hvm : v ∈ pandasMode xs := by
      unfold pandasMode
      exact hperm.symm.subset hvf
    obtain ⟨m, t, hmt⟩ : ∃ m t, pandasMode xs = m :: t := by
      cases hpm : pandasMode xs with
      | nil => rw [hpm] at hvm; cases hvm
      | cons m t => exact ⟨m, t, rfl⟩
    have hmf : m ∈ xs.dedup.filter fun u => decide (xs.count u = modeCount xs) := by
      have : m ∈ pandasMode xs := by rw [hmt]; exact List.mem_cons_self m t
      unfold pandasMode at this
      exact hperm.subset this
    rw [List.mem_filter] at hmf
    refine ⟨m, ?_, List.mem_dedup.mp hmf.1, by simpa using hmf.2, ?_⟩
    · show (pandasMode xs).head? = some m
      rw [hmt]; rfl
    · intro u hu hcu
      have huf : u ∈ pandasMode xs := by
        unfold pandasMode
        refine hperm.symm.subset ?_
        rw [List.mem_filter]
        exact ⟨List.mem_dedup.mpr hu, by simpa using hcu⟩
      rw [hmt] at huf
      rcases List.mem_cons.mp huf with rfl | hut
      · exact strle_refl u
      · have hsort' : List.Sorted strle (pandasMode xs) := hsort
        rw [hmt] at hsort'
        exact (List.sorted_cons.mp hsort').1 u hut

/-- Witness for `select_most_frequent_mode_min` at the group
`["Engineer", "Senior Engineer"]` of the claim. -/
theorem select_most_frequent_mode_min_witness :
    ∃ m, select_most_frequent [some "Engineer", some "Senior Engineer"] = some m ∧
      m ∈ [some "Engineer", some "Senior Engineer"].filterMap id ∧
      ([some "Engineer", some "Senior Engineer"].filterMap id).count m =
        modeCount ([some "Engineer", some "Senior Engineer"].filterMap id) ∧
      ∀ v ∈ [some "Engineer", some "Senior Engineer"].filterMap id,
        ([some "Engineer", some "Senior Engineer"].filterMap id).count v =
          modeCount ([some "Engineer", some "Senior Engineer"].filterMap id) → strle m v :=
  (select_most_frequent_mode_min [some "Engineer", some "Senior Engineer"] (by decide)).2

/-! ## C2 — fallback-chain monotonicity and short-circuit -/

theorem runChain_best_le : ∀ (l : List JobInfo) (best : JobInfo),
    best.confidence_score ≤ (runChain best l).1.confidence_score
  | [], _ => le_refl _
  | s :: rest, best => by
    by_cases h1 : best.confidence_score < s.confidence_score
    · by_cases h2 : highConfidenceThreshold < s.confidence_score
      · simpa [runChain, h1, h2] using le_of_lt h1
      · simpa [runChain, h1, h2] using
          le_of_lt (lt_of_lt_of_le h1 (runChain_best_le rest s))
    · simpa [runChain, h1] using runChain_best_le rest best

theorem runChain_take_le : ∀ (l : List JobInfo) (best : JobInfo),
    ∀ s ∈ l.take (runChain best l).2,
      s.confidence_score ≤ (runChain best l).1.confidence_score
  | [], best => by simp [runChain]
  | s :: rest, best => by
    by_cases h1 : best.confidence_score < s.confidence_score
    · by_cases h2 : highConfidenceThreshold < s.confidence_score
      · intro u hu
        simp only [runChain, if_pos h1, if_pos h2] at hu ⊢
        rw [List.take_succ_cons, List.take_zero] at hu
        rcases List.mem_cons.mp hu with rfl | hu'
        · exact le_refl _
        · cases hu'
      · intro u hu
        simp only [runChain, if_pos h1, if_neg h2] at hu ⊢
        rw [List.take_succ_cons] at hu
        rcases List.mem_cons.mp hu with rfl | hu'
        · exact runChain_best_le rest u
        · exact runChain_take_le rest s u hu'
    · intro u hu
      simp only [runChain, if_neg h1] at hu ⊢
      rw [List.take_succ_cons] at hu
      rcases List.mem_cons.mp hu with rfl | hu'
      · exact le_trans (not_lt.mp h1) (runChain_best_le rest best)
      · exact runChain_take_le rest best u hu'

theorem runChain_count_le : ∀ (l : List JobInfo) (best : JobInfo) (k : Nat),
    best.confidence_score ≤ highConfidenceThreshold →
    highConfidenceThreshold < (foldBest best (l.take k)).confidence_score →
    (runChain best l).2 ≤ k
  | [], best, k, _, _ => by simp [runChain]
  | s :: rest, best, 0, hb, hf => by
    simp only [List.take_zero, foldBest, List.foldl_nil] at hf
    exact absurd hf (not_lt.mpr hb)
  | s :: rest, best, k + 1, hb, hf => by
    rw [List.take_succ_cons] at hf
    by_cases h1 : best.confidence_score < s.confidence_score
    · by_cases h2 : highConfidenceThreshold < s.confidence_score
      · simp only [runChain, if_pos h1, if_pos h2]
        omega
      · simp only [runChain, if_pos h1, if_neg h2]
        have hf' : highConfidenceThreshold <
            (foldBest s (rest.take k)).confidence_score := by
          simpa [foldBest, List.foldl_cons, if_pos h1] using hf
        have := runChain_count_le rest s k (not_lt.mp h2) hf'
        omega
    · simp only [runChain, if_neg h1]
      have hf' : highConfidenceThreshold <
          (foldBest best (rest.take k)).confidence_score := by
        simpa [foldBest, List.foldl_cons, if_neg h1] using hf
      have := runChain_count_le rest best k hb hf'
      omega

/-- C2: for every ordered list of per-strategy outcomes, the confidence of
the result of `extract_job_company` is ≥ the confidence of every strategy
actually executed (the executed strategies are the `take` of the executed
count), and once the running best confidence exceeds the threshold `0.8`
after some prefix, no strategy beyond that prefix executes. -/
theorem extract_job_company_monotone_shortcircuit (outcomes : List JobInfo) :
    (∀ s ∈ outcomes.take (runChain emptyJobInfo outcomes).2,
      s.confidence_score ≤ (extract_job_company outcomes).confidence_score) ∧
    ∀ k, highConfidenceThreshold <
        (foldBest emptyJobInfo (outcomes.take k)).confidence_score →
      (runChain emptyJobInfo outcomes).2 ≤ k := by
  constructor
  · exact runChain_take_le outcomes emptyJobInfo
  · intro k hk
    refine runChain_count_le outcomes emptyJobInfo k ?_ hk
    show (0 : ℚ) ≤ 8 / 10
    norm_num

/-- A high-confidence signature outcome (`0.5 + 0.4` of
`_extract_from_signature`). -/
def sigHigh : JobInfo :=
  { job_title := some "Senior Engineer", company := some "Acme"
    department := some "Engineering", confidence_score := 9 / 10
    source := some "signature" }

/-- A domain outcome (`0.3` of `_extract_from_domain`). -/
def domLow : JobInfo :=
  { job_title := none, company := some "Acme", department := none
    confidence_score := 3 / 10, source := some "email_domain" }

/-- Witness for `extract_job_company_monotone_shortcircuit`: with a
`0.9`-confidence signature outcome followed by a `0.3` domain outcome,
the first strategy already exceeds `0.8`, so at most one strategy runs,
and its confidence is dominated by the result. -/
theorem extract_job_company_monotone_shortcircuit_witness :
    sigHigh.confidence_score ≤ (extract_job_company [sigHigh, domLow]).confidence_score ∧
    (runChain emptyJobInfo [sigHigh, domLow]).2 ≤ 1 := by
  constructor
  · refine (extract_job_company_monotone_shortcircuit [sigHigh, domLow]).1 sigHigh ?_
    norm_num [runChain, emptyJobInfo, sigHigh, highConfidenceThreshold]
  · refine (extract_job_company_monotone_shortcircuit [sigHigh, domLow]).2 1 ?_
    norm_num [foldBest, emptyJobInfo, sigHigh, highConfidenceThreshold]

/-! ## C4 — exception handling in the chain -/

/-- C4, counterexample: when the first strategy raises, the claim predicts
the failure is confined to that strategy (a zero-confidence outcome) and
the remaining strategies still run — on outcomes
`[zero-confidence, sigHigh]` the loop returns `sigHigh`. The code instead
catches the exception outside the loop: it returns the all-`None`
zero-confidence dict and executes nothing after the raising strategy. -/
theorem extract_job_company_error_aborts_chain :
    extract_job_company_exc [Except.error "RuntimeError", Except.ok sigHigh] =
      emptyJobInfo ∧
    (runChainExc emptyJobInfo [Except.error "RuntimeError", Except.ok sigHigh]).2 = 1 ∧
    extract_job_company [emptyJobInfo, sigHigh] = sigHigh ∧
    emptyJobInfo ≠ sigHigh := by
  refine ⟨rfl, rfl, ?_, ?_⟩
  · show (runChain emptyJobInfo [emptyJobInfo, sigHigh]).1 = sigHigh
    norm_num [runChain, emptyJobInfo, sigHigh, highConfidenceThreshold]
  · intro h
    have := congrArg JobInfo.job_title h
    simp [emptyJobInfo, sigHigh] at this

/-- C4 (amended): a strategy exception is caught by the `try` wrapping the
whole loop of `extract_job_company`: at the point a strategy raises, the
chain stops — strategies after the failing one never execute — and the
function returns the all-`None` zero-confidence result, whatever the best
result so far was; the exception never propagates to the caller. -/
theorem runChainExc_error_aborts (best : JobInfo) (e : String)
    (rest : List StrategyOutcome) :
    runChainExc best (Except.error e :: rest) = (emptyJobInfo, 1) ∧
    extract_job_company_exc (Except.error e :: rest) = emptyJobInfo :=
  ⟨rfl, rfl⟩

/-! ## C3 — classifier tie laws -/

/-- If `find? p` and `find? q` pick distinct elements `a` and `b` of the
same list, `p` entails `q`, `q` holds at `a` and `p` holds at `b`, we get a
contradiction: whichever of the two comes first in the list satisfies both
predicates, so the two `find?`s cannot disagree in this pattern. -/
theorem find?_entail_conflict {α : Type} {p q : α → Bool} :
    ∀ (l : List α) {a b : α}, (∀ x, p x = true → q x = true) →
      l.find? p = some a → l.find? q = some b →
      q a = true → p b = true → b ≠ a → False
  | [], _, _, _, hp, _, _, _, _ => by simp at hp
  | x :: t, a, b, himp, hp, hq, hqa, hpb, hne => by
    by_cases hqx : q x = true
    · rw [List.find?_cons_of_pos _ hqx] at hq
      have hbx : b = x := (Option.some.inj hq).symm
      by_cases hpx : p x = true
      · rw [List.find?_cons_of_pos _ hpx] at hp
        have hax : a = x := (Option.some.inj hp).symm
        exact hne (hbx.trans hax.symm)
      · rw [hbx] at hpb
        exact hpx hpb
    · have hpx : ¬ p x = true := fun hx => hqx (himp x hx)
      rw [List.find?_cons_of_neg _ hpx] at hp
      rw [List.find?_cons_of_neg _ hqx] at hq
      exact find?_entail_conflict t himp hp hq hqa hpb hne

/-- Scores giving the tied set {casual, automated}. -/
def scoresCA : Category → Nat
  | casual => 1
  | automated => 1
  | _ => 0

/-- Scores giving the tied set {casual, transactional, automated}. -/
def scoresCTA : Category → Nat
  | casual => 1
  | transactional => 1
  | automated => 1
  | _ => 0

/-- C3, counterexample: no fixed priority order describes the remaining
ties. The tie {casual, automated} resolves to `casual`
(`top_categories[0]` in dict order skips `formal`), which forces any
priority order to put `casual` before `automated`; but the tie
{casual, transactional, automated} resolves to `automated` (the
transactional/automated rule fires), which forces `automated` before
`casual`. -/
theorem determineFromScores_no_fixed_priority :
    ¬ ∃ π : List Category, ∀ scores : Category → Nat,
        1 < (topCategories scores).length →
        topCategories scores ≠ [formal, casual] →
        topCategories scores ≠ [transactional, automated] →
        π.find? (fun c => (topCategories scores).contains c) =
          some (determineFromScores scores) := by
  rintro ⟨π, h⟩
  have h1 := h scoresCA (by decide) (by decide) (by decide)
  have h2 := h scoresCTA (by decide) (by decide) (by decide)
  rw [show topCategories scoresCA = [casual, automated] from by decide,
    show determineFromScores scoresCA = casual from by decide] at h1
  rw [show topCategories scoresCTA = [casual, transactional, automated] from by decide,
    show determineFromScores scoresCTA = automated from by decide] at h2
  exact find?_entail_conflict π (p := fun c => [casual, automated].contains c)
    (q := fun c => [casual, transactional, automated].contains c)
    (by decide) h1 h2 (by decide) (by decide) (by decide)

/-- The head of `categoryOrder.filter p` is the first category in
declaration order satisfying `p`. -/
theorem headI_filter_eq_find? (p : Category → Bool) (hne : categoryOrder.filter p ≠ []) :
    some (categoryOrder.filter p).headI = categoryOrder.find? p := by
  revert hne
  show ∀ _, some (List.headI (List.filter p categoryOrder)) = List.find? p categoryOrder
  rcases hf : p formal with _ | _ <;> rcases hc : p casual with _ | _ <;>
    rcases ht : p transactional with _ | _ <;> rcases hm : p marketing with _ | _ <;>
    rcases ha : p automated with _ | _ <;>
    simp [categoryOrder, List.filter, List.find?, hf, hc, ht, hm, ha]

/-- C3 (amended): a tied set exactly {casual, formal} (the filter order is
`[formal, casual]`) resolves to `casual`, and exactly
{transactional, automated} to `automated`; more generally **any** tie
containing both casual and formal resolves to `casual`, otherwise any tie
containing both transactional and automated resolves to `automated`, and
any remaining input resolves to the first top-scoring category in the
declaration order (formal, casual, transactional, marketing, automated) —
no single fixed priority order covers the ties. -/
theorem determineFromScores_tie_resolution (scores : Category → Nat) :
    (topCategories scores = [formal, casual] → determineFromScores scores = casual) ∧
    (topCategories scores = [transactional, automated] →
      determineFromScores scores = automated) ∧
    (1 < (topCategories scores).length → casual ∈ topCategories scores →
      formal ∈ topCategories scores → determineFromScores scores = casual) ∧
    (1 < (topCategories scores).length →
      ¬ (casual ∈ topCategories scores ∧ formal ∈ topCategories scores) →
      transactional ∈ topCategories scores → automated ∈ topCategories scores →
      determineFromScores scores = automated) ∧
    (¬ ((1 < (topCategories scores).length ∧ casual ∈ topCategories scores ∧
          formal ∈ topCategories scores) ∨
        (1 < (topCategories scores).length ∧ transactional ∈ topCategories scores ∧
          automated ∈ topCategories scores)) →
      some (determineFromScores scores) =
        categoryOrder.find? fun c => decide (scores c = maxScore scores)) := by
  refine ⟨?_, ?_, ?_, ?_, ?_⟩
  · intro htop
    unfold determineFromScores
    rw [htop]
    simp
  · intro htop
    unfold determineFromScores
    rw [htop]
    simp
  · intro hlen hc hf
    unfold determineFromScores
    rw [if_pos ⟨hlen, hc, hf⟩]
  · intro hlen hncf ht ha
    unfold determineFromScores
    rw [if_neg (fun hx => hncf ⟨hx.2.1, hx.2.2⟩), if_pos ⟨hlen, ht, ha⟩]
  · intro hother
    rw [not_or] at hother
    have h1 : ¬ (1 < (topCategories scores).length ∧ casual ∈ topCategories scores ∧
        formal ∈ topCategories scores) := hother.1
    have h2 : ¬ (1 < (topCategories scores).length ∧
        transactional ∈ topCategories scores ∧ automated ∈ topCategories scores) :=
      hother.2
    unfold determineFromScores
    rw [if_neg h1, if_neg h2]
    have hne : topCategories scores ≠ [] := by
      intro h0
      obtain ⟨v, hv, hcv⟩ : ∃ c ∈ categoryOrder, scores c = maxScore scores := by
        have := foldr_max_mem (categoryOrder.map scores) (by simp [categoryOrder])
        rw [List.mem_map] at this
        obtain ⟨c, hc, hsc⟩ := this
        exact ⟨c, hc, hsc⟩
      have : v ∈ topCategories scores := by
        rw [topCategories, List.mem_filter]
        exact ⟨hv, by simpa using hcv⟩
      rw [h0] at this
      cases this
    exact headI_filter_eq_find? _ hne

/-- Witness for `determineFromScores_tie_resolution` at the claim's two
examples: `{casual: 3, formal: 3}` (others 0) resolves to `casual`, and
`{transactional: 2, automated: 2}` (others 0) resolves to `automated`. -/
theorem determineFromScores_tie_resolution_witness :
    determineFromScores (fun c => match c with
      | casual => 3 | formal => 3 | _ => 0) = casual ∧
    determineFromScores (fun c => match c with
      | transactional => 2 | automated => 2 | _ => 0) = automated :=
  ⟨(determineFromScores_tie_resolution _).1 (by decide),
   (determineFromScores_tie_resolution _).2.1 (by decide)⟩

/-! ## C8 — the no-match default -/

/-- C8, counterexample: on all-zero scores the classifier returns
`casual`, but `casual` is **not** the lowest-priority category of the
declaration order — the last category is `automated`. -/
theorem determineFromScores_zero_not_lowest_priority :
    determineFromScores (fun _ => 0) = casual ∧
    categoryOrder.getLastD formal = automated ∧
    (casual : Category) ≠ automated := by
  refine ⟨by decide, by decide, by decide⟩

/-- C8 (amended): a message matching no pattern and receiving no
contextual bonus leaves every category score at zero; all five categories
then tie, the casual/formal preference fires, and the classifier
deterministically returns `casual` — it never raises an error. -/
theorem determineFromScores_all_zero (scores : Category → Nat)
    (h : ∀ c, scores c = 0) :
    determineFromScores scores = casual := by
  have htop : topCategories scores = categoryOrder := by
    unfold topCategories maxScore
    simp [h, categoryOrder]
  unfold determineFromScores
  rw [htop]
  simp [categoryOrder]

/-- Witness for `determineFromScores_all_zero` at the zero score table. -/
theorem determineFromScores_all_zero_witness :
    determineFromScores (fun _ => 0) = casual :=
  determineFromScores_all_zero (fun _ => 0) (fun _ => rfl)

/-! ## C5 — median hour -/

theorem sorted_getD_le {l : List Nat} (hs : l.Sorted (· ≤ ·)) {i j : Nat}
    (hij : i ≤ j) (hj : j < l.length) : l.getD i 0 ≤ l.getD j 0 := by
  have hi : i < l.length := lt_of_le_of_lt hij hj
  rw [List.getD_eq_get l 0 hi, List.getD_eq_get l 0 hj]
  exact hs.rel_get_of_le hij

/-- C5, counterexample: on the even-count group `[9, 14]` the code computes
`int((9 + 14) / 2) = 11`, not the lower middle value `9` demanded by the
claim (`median_hour_spec`). -/
theorem median_hour_not_lower_median :
    median_hour [9, 14] = some 11 ∧
    median_hour_spec [9, 14] = some 9 ∧
    (11 : Nat) ≠ 9 := by
  refine ⟨by decide, by decide, by decide⟩

/-- C5 (amended): for every non-empty multiset of hours the consolidated
hour is `int` of the pandas median: the middle of the sorted values for an
odd count, and the **floor of the mean of the two middle values** — not
the lower one — for an even count; it always lies between the two middle
values, coincides with the lower median on odd counts, and
`[9, 13, 21] ↦ 13`. -/
theorem median_hour_floor_of_mean (hours : List Nat) (h : hours ≠ []) :
    median_hour [9, 13, 21] = some 13 ∧
    ∃ lo hi, median_hour_spec hours = some lo ∧
      hi = (List.insertionSort (· ≤ ·) hours).getD (hours.length / 2) 0 ∧
      median_hour hours = some ((lo + hi) / 2) ∧
      lo ≤ (lo + hi) / 2 ∧ (lo + hi) / 2 ≤ hi ∧
      (hours.length % 2 = 1 → median_hour hours = median_hour_spec hours) := by
  refine ⟨by decide, ?_⟩
  have hs' : (List.insertionSort (· ≤ ·) hours).Sorted (· ≤ ·) :=
    List.sorted_insertionSort _ hours
  have hlen : (List.insertionSort (· ≤ ·) hours).length = hours.length :=
    (List.perm_insertionSort _ hours).length_eq
  have hn1 : 1 ≤ hours.length := by
    cases hours with
    | nil => cases h rfl
    | cons a t => simp
  have hjlt : hours.length / 2 < (List.insertionSort (· ≤ ·) hours).length := by
    rw [hlen]; omega
  have hle : (List.insertionSort (· ≤ ·) hours).getD ((hours.length - 1) / 2) 0 ≤
      (List.insertionSort (· ≤ ·) hours).getD (hours.length / 2) 0 :=
    sorted_getD_le hs' (by omega) hjlt
  refine ⟨(List.insertionSort (· ≤ ·) hours).getD ((hours.length - 1) / 2) 0,
    (List.insertionSort (· ≤ ·) hours).getD (hours.length / 2) 0,
    by unfold median_hour_spec; rw [if_neg h], rfl, ?_, by omega, by omega, ?_⟩
  · unfold median_hour
    rw [if_neg h]
    by_cases hodd : hours.length % 2 = 1
    · rw [if_pos hodd]
      rw [show (hours.length - 1) / 2 = hours.length / 2 from by omega]
      congr 1
      omega
    · rw [if_neg hodd]
      rw [show (hours.length - 1) / 2 = hours.length / 2 - 1 from by omega]
  · intro hodd
    unfold median_hour median_hour_spec
    rw [if_neg h, if_neg h, if_pos hodd,
      show (hours.length - 1) / 2 = hours.length / 2 from by omega]

/-- Witness for `median_hour_floor_of_mean` at the even-count group
`[9, 14]`. -/
theorem median_hour_floor_of_mean_witness :
    ∃ lo hi, median_hour_spec [9, 14] = some lo ∧
      hi = (List.insertionSort (· ≤ ·) [9, 14]).getD ([9, 14].length / 2) 0 ∧
      median_hour [9, 14] = some ((lo + hi) / 2) ∧
      lo ≤ (lo + hi) / 2 ∧ (lo + hi) / 2 ≤ hi ∧
      ([9, 14].length % 2 = 1 → median_hour [9, 14] = median_hour_spec [9, 14]) :=
  (median_hour_floor_of_mean [9, 14] (by decide)).2

/-! ## C6 — boolean majority -/

/-- C6, counterexample: on the tied flag group `[True, False]` the code's
`max(set(flags), key=flags.count)` returns `False` — CPython iterates the
set `{False, True}` starting at `False` and `max` keeps the first maximum —
whereas the claim demands a tie broken toward `True`. -/
theorem bool_majority_tie_is_false :
    bool_majority [true, false] = some false ∧
    (some false : Option Bool) ≠ some true := by
  refine ⟨by decide, by decide⟩

/-- C6 (amended): for every non-empty list of flags the consolidated flag
is the majority value, and an exact tie yields `false` (the consolidated
flag is `true` iff strictly more `true`s than `false`s occur). -/
theorem bool_majority_tie_breaks_false (flags : List Bool) (h : flags ≠ []) :
    bool_majority flags = some (decide (flags.count false < flags.count true)) := by
  have hsum : ∀ t : List Bool, t.count false + t.count true = t.length := by
    intro t
    induction t with
    | nil => rfl
    | cons b t ih =>
      cases b <;> simp [List.count_cons] <;> omega
  have hsum := hsum flags
  have hlen : flags.length ≠ 0 := fun hl => h (List.length_eq_zero.mp hl)
  unfold bool_majority
  rw [if_neg h]
  by_cases h0 : flags.count false = 0
  · rw [if_pos h0]
    have : flags.count false < flags.count true := by omega
    simp [this]
  · rw [if_neg h0]
    by_cases hlt : flags.count false < flags.count true
    · rw [if_pos hlt]; simp [hlt]
    · rw [if_neg hlt]; simp [hlt]

/-- Witness for `bool_majority_tie_breaks_false` at `[true, false, true]`:
a strict majority of `true`. -/
theorem bool_majority_tie_breaks_false_witness :
    bool_majority [true, false, true] =
      some (decide ([true, false, true].count false < [true, false, true].count true)) :=
  bool_majority_tie_breaks_false [true, false, true] (by decide)

/-! ## C7 — language set-union merge -/

/-- `merge_unique_languages` depends only on the set of tokens of its
input. -/
theorem merge_unique_languages_ext {l₁ l₂ : List String}
    (hmem : ∀ t, t ∈ l₁.flatMap langTokens ↔ t ∈ l₂.flatMap langTokens) :
    merge_unique_languages l₁ = merge_unique_languages l₂ := by
  have hd : ∀ t, t ∈ (l₁.flatMap langTokens).dedup ↔
      t ∈ (l₂.flatMap langTokens).dedup := by
    intro t
    rw [List.mem_dedup, List.mem_dedup]
    exact hmem t
  have hperm : List.Perm (l₁.flatMap langTokens).dedup (l₂.flatMap langTokens).dedup :=
    (List.perm_ext_iff_of_nodup (List.nodup_dedup _) (List.nodup_dedup _)).mpr hd
  have hsorteq : List.insertionSort strle (l₁.flatMap langTokens).dedup =
      List.insertionSort strle (l₂.flatMap langTokens).dedup :=
    List.eq_of_perm_of_sorted
      ((List.perm_insertionSort _ _).trans
        (hperm.trans (List.perm_insertionSort _ _).symm))
      (List.sorted_insertionSort _ _) (List.sorted_insertionSort _ _)
  simp only [merge_unique_languages]
  by_cases h1 : (l₁.flatMap langTokens).dedup.isEmpty = true
  · have h2 : (l₂.flatMap langTokens).dedup.isEmpty = true := by
      rw [List.isEmpty_iff] at h1 ⊢
      rw [h1] at hperm
      exact hperm.symm.eq_nil
    rw [if_pos h1, if_pos h2]
  · have h2 : ¬ (l₂.flatMap langTokens).dedup.isEmpty = true := by
      rw [List.isEmpty_iff] at h1 ⊢
      intro h0
      rw [h0] at hperm
      exact h1 hperm.eq_nil
    rw [if_neg h1, if_neg h2, hsorteq]

/-- C7 (amended): each group value is split on commas into
whitespace-trimmed (but not case-normalized) tokens, the tokens are
unioned across the group and returned sorted ascending, joined by `", "`;
the merge is invariant under permutation of the group and idempotent under
repetition, and merging `"en,fr"` with `"fr,de"` yields `"de, en, fr"`. -/
theorem merge_unique_languages_laws :
    merge_unique_languages ["en,fr", "fr,de"] = some "de, en, fr" ∧
    (∀ l₁ l₂ : List String, l₁.Perm l₂ →
      merge_unique_languages l₁ = merge_unique_languages l₂) ∧
    ∀ l : List String, merge_unique_languages (l ++ l) = merge_unique_languages l := by
  refine ⟨by decide, ?_, ?_⟩
  · intro l₁ l₂ hp
    apply merge_unique_languages_ext
    intro t
    rw [List.mem_flatMap, List.mem_flatMap]
    constructor
    · rintro ⟨a, ha, hta⟩
      exact ⟨a, hp.subset ha, hta⟩
    · rintro ⟨a, ha, hta⟩
      exact ⟨a, hp.symm.subset ha, hta⟩
  · intro l
    apply merge_unique_languages_ext
    intro t
    rw [List.mem_flatMap, List.mem_flatMap]
    constructor
    · rintro ⟨a, ha, hta⟩
      rcases List.mem_append.mp ha with ha' | ha' <;> exact ⟨a, ha', hta⟩
    · rintro ⟨a, ha, hta⟩
      exact ⟨a, List.mem_append.mpr (Or.inl ha), hta⟩

/-- Witness for `merge_unique_languages_laws`: the two group orders of the
claim's example agree. -/
theorem merge_unique_languages_laws_witness :
    merge_unique_languages ["en,fr", "fr,de"] =
      merge_unique_languages ["fr,de", "en,fr"] :=
  (merge_unique_languages_laws).2.1 ["en,fr", "fr,de"] ["fr,de", "en,fr"]
    (List.Perm.swap _ _ _)

/-- C7, counterexample: the group `["en", "EN"]` merges to `"EN, en"` —
tokens are not case-normalized, so the two spellings stay distinct —
whereas the claim's normalized merge (`merge_unique_languages_spec`) gives
`"en"`. -/
theorem merge_unique_languages_not_case_normalized :
    merge_unique_languages ["en", "EN"] = some "EN, en" ∧
    merge_unique_languages_spec ["en", "EN"] = some "en" ∧
    (some "EN, en" : Option String) ≠ some "en" := by
  refine ⟨by decide, by decide, by decide⟩

/-! ## C9 — grouping key -/

theorem takeWhile_append_of_all {p : Char → Bool} :
    ∀ (l rest : List Char), (∀ c ∈ l, p c = true) →
      (l ++ rest).takeWhile p = l ++ rest.takeWhile p
  | [], _, _ => rfl
  | c :: l', rest, h => by
    rw [List.cons_append, List.takeWhile_cons, h c (List.mem_cons_self c l'),
      takeWhile_append_of_all l' rest (fun x hx => h x (List.mem_cons_of_mem _ hx))]
    rfl

theorem dropWhile_append_of_all {p : Char → Bool} :
    ∀ (l rest : List Char), (∀ c ∈ l, p c = true) →
      (l ++ rest).dropWhile p = rest.dropWhile p
  | [], _, _ => rfl
  | c :: l', rest, h => by
    rw [List.cons_append, List.dropWhile_cons, if_pos (h c (List.mem_cons_self c l'))]
    exact dropWhile_append_of_all l' rest (fun x hx => h x (List.mem_cons_of_mem _ hx))

/-- Dropping the leading email characters of `cs ++ '<' :: L` for a
display-name part `cs` free of `'@'` always stops at a character that is
not `'@'` (either a non-email character of `cs` or the `'<'`). -/
theorem dropWhile_display_head :
    ∀ (cs L : List Char), (∀ c ∈ cs, c ≠ '@') →
      ∃ x t, (cs ++ '<' :: L).dropWhile isEmailChar = x :: t ∧ x ≠ '@'
  | [], L, _ => by
    refine ⟨'<', L, ?_, by decide⟩
    rw [List.nil_append, List.dropWhile_cons, if_neg (by decide)]
  | c :: cs', L, h => by
    rw [List.cons_append, List.dropWhile_cons]
    by_cases hc : isEmailChar c = true
    · rw [if_pos hc]
      exact dropWhile_display_head cs' L (fun x hx => h x (List.mem_cons_of_mem _ hx))
    · rw [if_neg hc]
      exact ⟨c, cs' ++ '<' :: L, rfl, h c (List.mem_cons_self c cs')⟩

/-- No email match starts inside the display-name part. -/
theorem matchEmailAt_display_none (cs L : List Char) (h : ∀ c ∈ cs, c ≠ '@') :
    matchEmailAt (cs ++ '<' :: L) = none := by
  obtain ⟨x, t, hxt, hx⟩ := dropWhile_display_head cs L h
  simp only [matchEmailAt]
  by_cases hrun : ((cs ++ '<' :: L).takeWhile isEmailChar).isEmpty = true
  · rw [if_pos hrun]
  · rw [if_neg hrun, hxt]
    simp [hx]

theorem searchEmail_skip_display :
    ∀ (d L : List Char), (∀ c ∈ d, c ≠ '@') →
      searchEmail (d ++ '<' :: L) = searchEmail ('<' :: L)
  | [], _, _ => rfl
  | c :: d', L, h => by
    rw [List.cons_append]
    show (match matchEmailAt (c :: (d' ++ '<' :: L)) with
      | some m => some m
      | none => searchEmail (d' ++ '<' :: L)) = searchEmail ('<' :: L)
    rw [show c :: (d' ++ '<' :: L) = (c :: d') ++ '<' :: L from rfl,
      matchEmailAt_display_none (c :: d') L h]
    exact searchEmail_skip_display d' L (fun x hx => h x (List.mem_cons_of_mem _ hx))

theorem matchEmailAt_not_email (c : Char) (rest : List Char)
    (hc : isEmailChar c = false) : matchEmailAt (c :: rest) = none := by
  simp only [matchEmailAt, List.takeWhile_cons, hc]
  rfl

theorem searchEmail_lt_cons (rest : List Char) :
    searchEmail ('<' :: rest) = searchEmail rest := by
  show (match matchEmailAt ('<' :: rest) with
    | some m => some m
    | none => searchEmail rest) = searchEmail rest
  rw [matchEmailAt_not_email '<' rest (by decide)]

/-- The match anchored at the address part returns exactly
`user ++ '@' :: host`. -/
theorem matchEmailAt_address (user host : List Char)
    (hu : user ≠ []) (huc : ∀ c ∈ user, isEmailChar c = true)
    (hh : host ≠ []) (hhc : ∀ c ∈ host, isEmailChar c = true) :
    matchEmailAt (user ++ '@' :: (host ++ ['>'])) = some (user ++ '@' :: host) := by
  have htw : (user ++ '@' :: (host ++ ['>'])).takeWhile isEmailChar = user := by
    rw [takeWhile_append_of_all user _ huc, List.takeWhile_cons, if_neg (by decide),
      List.append_nil]
  have hdw : (user ++ '@' :: (host ++ ['>'])).dropWhile isEmailChar =
      '@' :: (host ++ ['>']) := by
    rw [dropWhile_append_of_all user _ huc, List.dropWhile_cons, if_neg (by decide)]
  have htw2 : (host ++ ['>']).takeWhile isEmailChar = host := by
    rw [takeWhile_append_of_all host _ hhc,
      show List.takeWhile isEmailChar ['>'] = [] from by decide, List.append_nil]
  simp only [matchEmailAt, htw, hdw, htw2]
  rw [if_neg (by simpa [List.isEmpty_iff] using hu), if_pos trivial,
    if_neg (by simpa [List.isEmpty_iff] using hh)]

theorem string_mk_data (s : String) : String.mk s.data = s := by
  cases s
  rfl

/-- C9, counterexample: the grouping key preserves letter case, so two
from-addresses differing only in case produce different keys and are
consolidated into *different* profiles, contradicting the claimed
lower-casing. -/
theorem email_key_not_lowercased :
    email_key "Alice@Acme.com" = "Alice@Acme.com" ∧
    email_key "alice@acme.com" = "alice@acme.com" ∧
    ("Alice@Acme.com" : String) ≠ "alice@acme.com" := by
  refine ⟨by decide, by decide, by decide⟩

/-- C9 (amended): the grouping key is obtained deterministically from the
from-address by taking the first substring matching
`[\w\.-]+@[\w\.-]+` — which strips a display name of the usual
`Display <user@host>` shape — but **without** lower-casing, so keys are
compared case-sensitively. -/
theorem email_key_strips_display_name (display user host : String)
    (h1 : ∀ c ∈ display.toList, c ≠ '@')
    (h2 : user.toList ≠ []) (h3 : ∀ c ∈ user.toList, isEmailChar c = true)
    (h4 : host.toList ≠ []) (h5 : ∀ c ∈ host.toList, isEmailChar c = true) :
    email_key (display ++ "<" ++ user ++ "@" ++ host ++ ">") = user ++ "@" ++ host := by
  have hdata : (display ++ "<" ++ user ++ "@" ++ host ++ ">").toList =
      display.toList ++ '<' :: (user.toList ++ '@' :: (host.toList ++ ['>'])) := by
    show (display ++ "<" ++ user ++ "@" ++ host ++ ">").data =
      display.data ++ '<' :: (user.data ++ '@' :: (host.data ++ ['>']))
    simp [String.data_append]
  have hrhs : (user ++ "@" ++ host).data = user.data ++ '@' :: host.data := by
    simp [String.data_append]
  unfold email_key
  rw [hdata, searchEmail_skip_display _ _ h1, searchEmail_lt_cons]
  cases hu : user.toList with
  | nil => exact absurd hu h2
  | cons c cs =>
    have hm : matchEmailAt (user.toList ++ '@' :: (host.toList ++ ['>'])) =
        some (user.toList ++ '@' :: host.toList) :=
      matchEmailAt_address user.toList host.toList h2 h3 h4 h5
    rw [hu] at hm
    rw [show (c :: cs) ++ '@' :: (host.toList ++ ['>']) =
      c :: (cs ++ '@' :: (host.toList ++ ['>'])) from rfl] at hm
    show (match searchEmail (c :: (cs ++ '@' :: (host.toList ++ ['>']))) with
      | some m => String.mk m
      | none => "") = user ++ "@" ++ host
    show (match (match matchEmailAt (c :: (cs ++ '@' :: (host.toList ++ ['>']))) with
      | some m => some m
      | none => searchEmail (cs ++ '@' :: (host.toList ++ ['>']))) with
      | some m => String.mk m
      | none => "") = user ++ "@" ++ host
    rw [hm]
    show String.mk ((c :: cs) ++ '@' :: host.toList) = user ++ "@" ++ host
    rw [← hu]
    show String.mk (user.data ++ '@' :: host.data) = user ++ "@" ++ host
    rw [← hrhs, string_mk_data]

/-- Witness for `email_key_strips_display_name` at
`"Alice Smith <alice@acme.com>"`. -/
theorem email_key_strips_display_name_witness :
    email_key ("Alice Smith " ++ "<" ++ "alice" ++ "@" ++ "acme.com" ++ ">") =
      "alice" ++ "@" ++ "acme.com" :=
  email_key_strips_display_name "Alice Smith " "alice" "acme.com"
    (by decide) (by decide) (by decide) (by decide) (by decide)

/-! ## C10 — the empty-name crash path -/

/-- C10: for a message whose signature yields no `PERSON` entity and whose
from-address `"alice@acme.com"` carries no display name, `extract_name`
returns the empty string, `predict_gender` evaluates `''.split()[0]` and
raises `IndexError`, and the surrounding `try`/`except` of
`process_single_email` turns the message into an empty record (no profile
row) instead of a profile. -/
theorem process_single_email_gender_empty_name :
    extract_name [] "alice@acme.com" = some "" ∧
    predict_gender (fun _ => "unknown") (some "") = Except.error "IndexError" ∧
    process_single_email_gender [] "alice@acme.com" (fun _ => "unknown") = none := by
  refine ⟨rfl, rfl, rfl⟩

end EmailAnalysis
